import Mathlib

/-!
# Verification of the DIAMOnD greedy expansion (src/scripts/script.py)

Shallow embedding of the `diamond` function (lines 89-165) and its
hypergeometric significance scorer. Node identifiers are strings. A Python
`set` has an incidental, unspecified iteration order; the embedding models
that order explicitly as the order of the `nodes` list (and of each
neighbour list), so that order-dependence of the algorithm is visible.
Floating-point p-values are modelled as exact rationals.
-/

namespace DiamondSpec

/-- The graph data consumed by `diamond`: the node set with its incidental
iteration order, and each node's neighbour set (`nodes = set(G.nodes())`,
`neighbors = {n: set(G.neighbors(n)) for n in nodes}`, lines 110 and 117).
`nbrs n` is empty for nodes outside the graph. -/
structure Network where
  nodes : List String
  nbrs : String → List String

/-- The degree map `degrees[n] = G.degree(n)` (line 118): the number of neighbours of `n`. -/
def Network.deg (g : Network) (n : String) : ℕ := (g.nbrs n).length

/-- Hypergeometric probability mass `C(s,i) * C(N-s,k-i) / C(N,k)` with
population `N`, success states `s`, draws `k`, observed successes `i`,
as an exact rational. -/
def hypergeomPmf (N s k i : ℕ) : ℚ :=
  (Nat.choose s i : ℚ) * (Nat.choose (N - s) (k - i) : ℚ) / (Nat.choose N k : ℚ)

/-- The survival function `hypergeom.sf(kb - 1, N, s, k)` (line 147): the upper-tail survival
probability `P(X >= kb) = sum_{i=kb}^{k} pmf(i)`, exactly. -/
def sfTail (N s k kb : ℕ) : ℚ := ∑ i ∈ Finset.Icc kb k, hypergeomPmf N s k i

/-- The count `kb`: the number of the candidate's neighbours currently in the cluster
(`sum(1 for nb in neighbors.get(node, ()) if nb in cluster)`, line 143). -/
def kbOf (g : Network) (cluster : List String) (node : String) : ℕ :=
  ((g.nbrs node).filter (fun nb => decide (nb ∈ cluster))).length

/-- Lines 125-129: `s = int(alpha * len(cluster))`, then
`if s < 1: s = len(cluster)`, then `if s > N: s = N`. `alpha` is a Python
integer, so the product is computed in `ℤ`. -/
def sEffective (alpha : ℤ) (csize N : ℕ) : ℕ :=
  let s : ℤ := alpha * csize
  let s' : ℤ := if s < 1 then (csize : ℤ) else s
  (if s' > (N : ℤ) then (N : ℤ) else s').toNat

/-- The per-candidate body of the scan (lines 139-150): a candidate with
degree 0 is skipped (`continue`), otherwise its p-value is
`hypergeom.sf(kb - 1, N, s, k)`. The `try/except` fallback to `1.0` cannot
fire in exact rational arithmetic, so it is not reachable in the model. -/
def candScore (g : Network) (cluster : List String) (N s : ℕ) (node : String) : Option ℚ :=
  let k := g.deg node
  if k = 0 then none
  else some (sfTail N s k (kbOf g cluster node))

/-- One step of the scan for the best candidate (lines 152-154): the
running `(best_node, best_p)` pair is replaced only on a strict
improvement `pval < best_p`. -/
def bestFold (f : String → Option ℚ) (acc : Option String × ℚ) (node : String) :
    Option String × ℚ :=
  match f node with
  | none => acc
  | some pval => if pval < acc.2 then (some node, pval) else acc

/-- The candidate scan of one iteration (lines 122-154), starting from
`best_node = None`, `best_p = 1.0` and visiting candidates in their
incidental enumeration order. -/
def findBest (f : String → Option ℚ) (cands : List String) : Option String × ℚ :=
  cands.foldl (bestFold f) (none, 1)

/-- Why the main loop stopped. `TARGET_REACHED` is the `while` guard
`len(added) < X` turning false; the other reasons are the two `break`s
(lines 136 and 158) and the empty-seed early return (line 105). -/
inductive Reason where
  | TARGET_REACHED
  | NO_CANDIDATES
  | NO_SCORABLE_CANDIDATE
  | EMPTY_SEED_SET
deriving DecidableEq

/-- The main loop (lines 121-164). `fuel` is `X - len(added)`, the number
of admissions still allowed by the guard `while len(added) < X`; it is
positive exactly when the guard holds, and each admission decreases it by
one. `cluster.add(best_node)` becomes a cons, which agrees with the
Python set insertion because the admitted node is drawn from
`nodes - cluster`, hence is never already present. -/
def diamondLoop (g : Network) (alpha : ℤ) :
    ℕ → List String → List String → List String × Reason
  | 0, _, added => (added, .TARGET_REACHED)
  | fuel + 1, cluster, added =>
    let N := g.nodes.length
    let s := sEffective alpha cluster.length N
    let candidates := g.nodes.filter (fun n => decide (n ∉ cluster))
    if candidates.isEmpty then (added, .NO_CANDIDATES)
    else
      match findBest (candScore g cluster N s) candidates with
      | (none, _) => (added, .NO_SCORABLE_CANDIDATE)
      | (some b, _) => diamondLoop g alpha fuel (b :: cluster) (added ++ [b])

/-- The observable outcome of one `diamond` call: the added nodes in
admission order (the returned list), the reason the loop stopped (printed
at lines 104, 135 and 157), and the missing-seed diagnostic (printed at
line 102). -/
structure DiamondResult where
  added : List String
  reason : Reason
  missing : List String
deriving DecidableEq

/-- The filtered seed set `seeds_present = set(s for s in seeds if s in G)` (line 99). The seed
list stands for the caller's seed set, so it is deduplicated. -/
def seedsPresent (g : Network) (seeds : List String) : List String :=
  (seeds.filter (fun s => decide (s ∈ g.nodes))).dedup

/-- The set `missing = set(seeds) - seeds_present` (line 100), the warning-level
diagnostic of seed identifiers absent from the graph. -/
def missingSeeds (g : Network) (seeds : List String) : List String :=
  (seeds.filter (fun s => decide (s ∉ g.nodes))).dedup

/-- The entry point `diamond(G, seeds, X, alpha)` (lines 89-165): filter the seeds to
those present in the graph (`seeds_present`), report the missing ones,
return an empty result if no seed is present, otherwise run the main
loop starting from `cluster = set(seeds_present)` and `added = []`. -/
def diamond (g : Network) (seeds : List String) (X : ℤ) (alpha : ℤ) : DiamondResult :=
  if (seedsPresent g seeds).isEmpty then ⟨[], .EMPTY_SEED_SET, missingSeeds g seeds⟩
  else
    let r := diamondLoop g alpha X.toNat (seedsPresent g seeds) []
    ⟨r.1, r.2, missingSeeds g seeds⟩

/-- The path graph A - B - C - D of the spec's Scenario A, used as a
concrete witness input. -/
def gPath : Network :=
  ⟨["A", "B", "C", "D"], fun n =>
    if n = "A" then ["B"]
    else if n = "B" then ["A", "C"]
    else if n = "C" then ["B", "D"]
    else if n = "D" then ["C"]
    else []⟩

/-- Claim C1: for a candidate with degree `k > 0` and `kb` neighbours in
the cluster, the computed p-value is the exact hypergeometric upper tail
`P(X >= kb) = sum_{i=kb}^{min(k,s)} C(s,i)*C(N-s,k-i)/C(N,k)`. -/
theorem candScore_eq_hypergeom_upper_tail (g : Network) (cluster : List String)
    (N s : ℕ) (node : String) (h : g.deg node ≠ 0) :
    candScore g cluster N s node =
      some (∑ i ∈ Finset.Icc (kbOf g cluster node) (min (g.deg node) s),
        hypergeomPmf N s (g.deg node) i) := by
  unfold candScore
  rw [if_neg h]
  congr 1
  unfold sfTail
  refine (Finset.sum_subset (Finset.Icc_subset_Icc_right (min_le_left _ _)) ?_).symm
  intro i hi hni
  rw [Finset.mem_Icc] at hi
  have hs : s < i := by
    rw [Finset.mem_Icc] at hni
    omega
  simp [hypergeomPmf, Nat.choose_eq_zero_of_lt hs]

/-- Claim C1 witness: on the path graph with cluster {A}, population 4,
success states 1, candidate B. -/
theorem candScore_eq_hypergeom_upper_tail_witness :
    candScore gPath ["A"] 4 1 "B" =
      some (∑ i ∈ Finset.Icc (kbOf gPath ["A"] "B") (min (gPath.deg "B") 1),
        hypergeomPmf 4 1 (gPath.deg "B") i) :=
  candScore_eq_hypergeom_upper_tail gPath ["A"] 4 1 "B" (by decide)

/-- Claim C4: for integer `alpha >= 1` and a non-empty cluster in a
non-empty graph, the effective success-state count equals
`clamp(alpha * |Cluster|, 1, N)`; and when the raw product falls below 1
the code falls back to `|Cluster|` (still capped at `N`). -/
theorem sEffective_clamp (alpha : ℤ) (c N : ℕ) :
    (1 ≤ alpha → 1 ≤ c → 1 ≤ N →
      (sEffective alpha c N : ℤ) = max 1 (min (alpha * c) N)) ∧
    (alpha * (c : ℤ) < 1 → sEffective alpha c N = min c N) := by
  constructor
  · intro h1 h2 h3
    have hc : (1 : ℤ) ≤ (c : ℤ) := by exact_mod_cast h2
    have hN : (1 : ℤ) ≤ (N : ℤ) := by exact_mod_cast h3
    have hp : (1 : ℤ) ≤ alpha * (c : ℤ) := by nlinarith
    simp only [sEffective]
    generalize alpha * (c : ℤ) = t at hp ⊢
    split_ifs <;> omega
  · intro hlt
    simp only [sEffective]
    generalize alpha * (c : ℤ) = t at hlt ⊢
    split_ifs <;> omega

/-- Claim C4 witness: `alpha = 2`, cluster size 3, `N = 4` for the clamp
branch; `alpha = 0`, cluster size 5, `N = 3` for the defensive fallback. -/
theorem sEffective_clamp_witness :
    ((sEffective 2 3 4 : ℤ) = max 1 (min ((2 : ℤ) * ((3 : ℕ) : ℤ)) (((4 : ℕ) : ℤ)))) ∧
    (sEffective 0 5 3 = min 5 3) :=
  ⟨(sEffective_clamp 2 3 4).1 (by decide) (by decide) (by decide),
   (sEffective_clamp 0 5 3).2 (by decide)⟩

/-- The two-component graph A - B, C - D: C and D never have a neighbour
in a cluster grown from seed A. -/
def gTwoComp : Network :=
  ⟨["A", "B", "C", "D"], fun n =>
    if n = "A" then ["B"]
    else if n = "B" then ["A"]
    else if n = "C" then ["D"]
    else if n = "D" then ["C"]
    else []⟩

/-- The star graph with centre B and leaves A, C, listing the nodes in the
order B, A, C. With seed B the two leaves tie at the minimum p-value. -/
def gStar : Network :=
  ⟨["B", "A", "C"], fun n =>
    if n = "A" then ["B"]
    else if n = "B" then ["A", "C"]
    else if n = "C" then ["B"]
    else []⟩

/-- The same abstract graph as `gStar` (same node set, same adjacency),
with the incidental enumeration order of the node set changed. -/
def gStarSwap : Network := { gStar with nodes := ["B", "C", "A"] }

/-- The graph A - B with an isolated node C. -/
def gIsolated : Network :=
  ⟨["A", "B", "C"], fun n =>
    if n = "A" then ["B"]
    else if n = "B" then ["A"]
    else []⟩

/-- Structure of the candidate scan: folding `bestFold` from `acc` either
returns `acc` unchanged (and then no scored element beat `acc.2`), or
returns `(some b, p)` where `b` is the first element of the list attaining
the minimum score `p`: every scored element strictly before `b` scores
strictly above `p`, every one after scores at least `p`. -/
theorem foldl_bestFold_spec (f : String → Option ℚ) :
    ∀ (l : List String) (acc : Option String × ℚ),
      (l.foldl (bestFold f) acc = acc ∧
        ∀ a ∈ l, ∀ q, f a = some q → acc.2 ≤ q) ∨
      (∃ l1 b l2,
        l = l1 ++ b :: l2 ∧
        (l.foldl (bestFold f) acc).1 = some b ∧
        f b = some (l.foldl (bestFold f) acc).2 ∧
        (l.foldl (bestFold f) acc).2 < acc.2 ∧
        (∀ a ∈ l1, ∀ q, f a = some q → (l.foldl (bestFold f) acc).2 < q) ∧
        (∀ a ∈ l2, ∀ q, f a = some q → (l.foldl (bestFold f) acc).2 ≤ q)) := by
  intro l
  induction l with
  | nil =>
    intro acc
    left
    simp
  | cons x l ih =>
    intro acc
    rw [List.foldl_cons]
    rcases hfx : f x with _ | p
    · have hacc : bestFold f acc x = acc := by simp [bestFold, hfx]
      rw [hacc]
      rcases ih acc with ⟨heq, hall⟩ | ⟨l1, b, l2, hsplit, h1, h2, h3, h4, h5⟩
      · left
        refine ⟨heq, ?_⟩
        intro a ha q hq
        rcases List.mem_cons.mp ha with rfl | ha
        · rw [hfx] at hq; cases hq
        · exact hall a ha q hq
      · right
        refine ⟨x :: l1, b, l2, by rw [hsplit]; rfl, h1, h2, h3, ?_, h5⟩
        intro a ha q hq
        rcases List.mem_cons.mp ha with rfl | ha
        · rw [hfx] at hq; cases hq
        · exact h4 a ha q hq
    · by_cases hlt : p < acc.2
      · have hacc : bestFold f acc x = (some x, p) := by
          simp [bestFold, hfx, hlt]
        rw [hacc]
        rcases ih (some x, p) with ⟨heq, hall⟩ | ⟨l1, b, l2, hsplit, h1, h2, h3, h4, h5⟩
        · right
          refine ⟨[], x, l, by simp, ?_, ?_, ?_, by simp, ?_⟩
          · rw [heq]
          · rw [heq, hfx]
          · rw [heq]; exact hlt
          · intro a ha q hq
            rw [heq]
            exact hall a ha q hq
        · right
          refine ⟨x :: l1, b, l2, by rw [hsplit]; rfl, h1, h2, lt_trans h3 hlt, ?_, h5⟩
          intro a ha q hq
          rcases List.mem_cons.mp ha with rfl | ha
          · rw [hfx] at hq
            cases hq
            exact lt_of_lt_of_le h3 (le_of_eq rfl)
          · exact h4 a ha q hq
      · have hacc : bestFold f acc x = acc := by
          simp [bestFold, hfx, hlt]
        rw [hacc]
        rcases ih acc with ⟨heq, hall⟩ | ⟨l1, b, l2, hsplit, h1, h2, h3, h4, h5⟩
        · left
          refine ⟨heq, ?_⟩
          intro a ha q hq
          rcases List.mem_cons.mp ha with rfl | ha
          · rw [hfx] at hq
            cases hq
            exact le_of_not_lt hlt
          · exact hall a ha q hq
        · right
          refine ⟨x :: l1, b, l2, by rw [hsplit]; rfl, h1, h2, h3, ?_, h5⟩
          intro a ha q hq
          rcases List.mem_cons.mp ha with rfl | ha
          · rw [hfx] at hq
            cases hq
            exact lt_of_lt_of_le h3 (le_of_not_lt hlt)
          · exact h4 a ha q hq

/-- A scan that picks a winner picked a member of the candidate list whose
score is defined and strictly below the initial best of `1`. -/
theorem findBest_some_mem (f : String → Option ℚ) (l : List String) (b : String) (p : ℚ)
    (h : findBest f l = (some b, p)) :
    b ∈ l ∧ f b = some p ∧ p < 1 := by
  rcases foldl_bestFold_spec f l (none, 1) with ⟨heq, _⟩ | ⟨l1, b', l2, hsplit, h1, h2, h3, _, _⟩
  · rw [findBest, heq] at h
    cases h
  · rw [findBest] at h
    rw [h] at h1 h2 h3
    cases h1
    exact ⟨by rw [hsplit]; exact List.mem_append_right _ (List.mem_cons_self _ _), h2, h3⟩

/-- Claim C2 counterexample: `gStar` and `gStarSwap` are the same abstract
graph (same node set, same adjacency) and the seeds, `X` and `alpha` are
identical, yet the two runs return different Selection Record sequences:
the leaves A and C tie at the minimum p-value and the winner is whichever
the incidental enumeration order of the unordered candidate set yields
first. -/
theorem diamond_order_dependent :
    gStar.nodes.toFinset = gStarSwap.nodes.toFinset ∧
    gStar.nbrs = gStarSwap.nbrs ∧
    (diamond gStar ["B"] 1 1).added ≠ (diamond gStarSwap ["B"] 1 1).added := by
  refine ⟨by decide, rfl, ?_⟩
  have h1 : (diamond gStar ["B"] 1 1).added = ["A"] := by
    norm_num +decide [diamond, seedsPresent, missingSeeds, diamondLoop, findBest, bestFold, candScore, sfTail, kbOf,
      hypergeomPmf, Network.deg, gStar, sEffective, Finset.Icc_self]
  have h2 : (diamond gStarSwap ["B"] 1 1).added = ["C"] := by
    norm_num +decide [diamond, seedsPresent, missingSeeds, diamondLoop, findBest, bestFold, candScore, sfTail, kbOf,
      hypergeomPmf, Network.deg, gStarSwap, gStar, sEffective, Finset.Icc_self]
  rw [h1, h2]
  decide

/-- Claim C2 (amended): the expansion is deterministic only relative to
the incidental enumeration order of the candidate set: the admitted node
is the first candidate in that order attaining the minimum p-value (the
scan replaces its best only on strict improvement), and that minimum is
strictly below the initial best of 1. There is no enumeration-independent
tie-break: enumerating the same candidate set in another order can
change the winner on ties. -/
theorem findBest_first_of_min (g : Network) (cluster : List String) (N s : ℕ)
    (cands : List String) (b : String) (p : ℚ)
    (h : findBest (candScore g cluster N s) cands = (some b, p)) :
    candScore g cluster N s b = some p ∧ p < 1 ∧
    ∃ l1 l2, cands = l1 ++ b :: l2 ∧
      (∀ a ∈ l1, ∀ q, candScore g cluster N s a = some q → p < q) ∧
      (∀ a ∈ l2, ∀ q, candScore g cluster N s a = some q → p ≤ q) := by
  rcases foldl_bestFold_spec (candScore g cluster N s) cands (none, 1) with
    ⟨heq, _⟩ | ⟨l1, b', l2, hsplit, h1, h2, h3, h4, h5⟩
  · rw [findBest, heq] at h
    cases h
  · rw [findBest] at h
    rw [h] at h1 h2 h3 h4 h5
    simp only at h1 h2 h3 h4 h5
    cases h1
    exact ⟨h2, h3, l1, l2, hsplit, h4, h5⟩

/-- Claim C2 (amended) witness: in the star graph with cluster {B},
candidates enumerated as A then C, the winner is A with p-value 1/3, the
first of the two tied candidates. -/
theorem findBest_first_of_min_witness :
    candScore gStar ["B"] 3 1 "A" = some (1/3) ∧ (1/3 : ℚ) < 1 ∧
    ∃ l1 l2, ["A", "C"] = l1 ++ "A" :: l2 ∧
      (∀ a ∈ l1, ∀ q, candScore gStar ["B"] 3 1 a = some q → 1/3 < q) ∧
      (∀ a ∈ l2, ∀ q, candScore gStar ["B"] 3 1 a = some q → 1/3 ≤ q) :=
  findBest_first_of_min gStar ["B"] 3 1 ["A", "C"] "A" (1/3) (by
    norm_num +decide [findBest, bestFold, candScore, sfTail, kbOf,
      hypergeomPmf, Network.deg, gStar, Finset.Icc_self])

/-- Claim C8: for fixed `(N, s, k)` the upper-tail p-value is antitone in
`kb`: increasing `kb` never increases the p-value. -/
theorem sfTail_antitone_in_kb (N s k kb kb' : ℕ) (h : kb ≤ kb') :
    sfTail N s k kb' ≤ sfTail N s k kb := by
  apply Finset.sum_le_sum_of_subset_of_nonneg (Finset.Icc_subset_Icc_left h)
  intro i _ _
  unfold hypergeomPmf
  positivity

/-- Claim C8 witness: `kb = 0 ≤ 1 = kb'` at `(N, s, k) = (4, 1, 2)`. -/
theorem sfTail_antitone_in_kb_witness : sfTail 4 1 2 1 ≤ sfTail 4 1 2 0 :=
  sfTail_antitone_in_kb 4 1 2 0 1 (by decide)

/-- Unfolding of the loop when the guard `len(added) < X` fails. -/
theorem diamondLoop_zero (g : Network) (alpha : ℤ) (cluster added : List String) :
    diamondLoop g alpha 0 cluster added = (added, Reason.TARGET_REACHED) := rfl

/-- Unfolding of one loop iteration while the guard still holds. -/
theorem diamondLoop_succ (g : Network) (alpha : ℤ) (fuel : ℕ) (cluster added : List String) :
    diamondLoop g alpha (fuel + 1) cluster added =
      if (g.nodes.filter (fun n => decide (n ∉ cluster))).isEmpty then
        (added, Reason.NO_CANDIDATES)
      else
        match findBest (candScore g cluster g.nodes.length
            (sEffective alpha cluster.length g.nodes.length))
            (g.nodes.filter (fun n => decide (n ∉ cluster))) with
        | (none, _) => (added, Reason.NO_SCORABLE_CANDIDATE)
        | (some b, _) => diamondLoop g alpha fuel (b :: cluster) (added ++ [b]) := rfl

/-- A winner of the candidate scan has nonzero degree: a degree-0
candidate is skipped before scoring and never stored in `best_node`. -/
theorem findBest_some_deg_ne_zero (g : Network) (cluster : List String) (N s : ℕ)
    (cands : List String) (b : String) (p : ℚ)
    (h : findBest (candScore g cluster N s) cands = (some b, p)) : g.deg b ≠ 0 := by
  obtain ⟨-, hscore, -⟩ := findBest_some_mem _ _ _ _ h
  intro h0
  rw [candScore] at hscore
  simp [h0] at hscore

/-- Master invariant of the main loop: the returned list extends `added`
by a duplicate-free block `new` of at most `fuel` nodes, each drawn from
the graph, outside the cluster, and of nonzero degree; the fuel is spent
exactly when the loop reports `TARGET_REACHED`; and `NO_CANDIDATES` is
reported only when every graph node is in the cluster or was admitted. -/
theorem diamondLoop_master (g : Network) (alpha : ℤ) :
    ∀ (fuel : ℕ) (cluster added : List String),
      ∃ new : List String,
        (diamondLoop g alpha fuel cluster added).1 = added ++ new ∧
        new.Nodup ∧
        (∀ n ∈ new, n ∉ cluster ∧ n ∈ g.nodes ∧ g.deg n ≠ 0) ∧
        new.length ≤ fuel ∧
        ((diamondLoop g alpha fuel cluster added).2 = Reason.TARGET_REACHED →
          new.length = fuel) ∧
        ((diamondLoop g alpha fuel cluster added).2 = Reason.NO_CANDIDATES →
          ∀ n ∈ g.nodes, n ∈ cluster ∨ n ∈ new) ∧
        (diamondLoop g alpha fuel cluster added).2 ≠ Reason.EMPTY_SEED_SET := by
  intro fuel
  induction fuel with
  | zero =>
    intro cluster added
    refine ⟨[], ?_, ?_, ?_, ?_, ?_, ?_, ?_⟩ <;> simp [diamondLoop_zero]
  | succ fuel ih =>
    intro cluster added
    rw [diamondLoop_succ]
    cases hc : (g.nodes.filter (fun n => decide (n ∉ cluster))).isEmpty with
    | true =>
      rw [if_pos rfl]
      have hnil : g.nodes.filter (fun n => decide (n ∉ cluster)) = [] := by
        simpa [List.isEmpty_iff] using hc
      refine ⟨[], by simp, by simp, by simp, by simp, by simp, ?_, by simp⟩
      intro _ n hn
      left
      by_contra hmem
      have : n ∈ g.nodes.filter (fun n => decide (n ∉ cluster)) := by
        simp [List.mem_filter, hn, hmem]
      rw [hnil] at this
      cases this
    | false =>
      rw [if_neg (by simp [hc])]
      rcases hfb : findBest (candScore g cluster g.nodes.length
          (sEffective alpha cluster.length g.nodes.length))
          (g.nodes.filter (fun n => decide (n ∉ cluster))) with ⟨_ | b, p⟩
      · refine ⟨[], by simp, by simp, by simp, by simp, by simp, by simp, by simp⟩
      · obtain ⟨hbmem, hbscore, hplt⟩ := findBest_some_mem _ _ _ _ hfb
        have hbnodes : b ∈ g.nodes := (List.mem_filter.mp hbmem).1
        have hbnotcl : b ∉ cluster := by
          have := (List.mem_filter.mp hbmem).2
          simpa using this
        have hdeg : g.deg b ≠ 0 := findBest_some_deg_ne_zero _ _ _ _ _ _ _ hfb
        obtain ⟨new, ih1, ih2, ih3, ih4, ih5, ih6, ih7⟩ := ih (b :: cluster) (added ++ [b])
        refine ⟨b :: new, ?_, ?_, ?_, ?_, ?_, ?_, ih7⟩
        · rw [ih1]
          simp
        · refine List.nodup_cons.mpr ⟨?_, ih2⟩
          intro hb
          exact (ih3 b hb).1 (List.mem_cons_self b cluster)
        · intro n hn
          rcases List.mem_cons.mp hn with rfl | hn
          · exact ⟨hbnotcl, hbnodes, hdeg⟩
          · obtain ⟨hnc, hnn, hnd⟩ := ih3 n hn
            exact ⟨fun hmem => hnc (List.mem_cons_of_mem _ hmem), hnn, hnd⟩
        · simpa using Nat.succ_le_succ ih4
        · intro ht
          simpa using congrArg Nat.succ (ih5 ht)
        · intro hnc n hn
          rcases ih6 hnc n hn with hmem | hmem
          · rcases List.mem_cons.mp hmem with rfl | hmem
            · exact Or.inr (List.mem_cons_self _ _)
            · exact Or.inl hmem
          · exact Or.inr (List.mem_cons_of_mem _ hmem)

/-- The empty-intersection early return (lines 103-105). -/
theorem diamond_empty (g : Network) (seeds : List String) (X alpha : ℤ)
    (h : seedsPresent g seeds = []) :
    diamond g seeds X alpha = ⟨[], Reason.EMPTY_SEED_SET, missingSeeds g seeds⟩ := by
  rw [diamond, if_pos]
  simp [h]

/-- With at least one present seed, `diamond` is the main loop started
from the present seeds. -/
theorem diamond_eq_loop (g : Network) (seeds : List String) (X alpha : ℤ)
    (h : seedsPresent g seeds ≠ []) :
    diamond g seeds X alpha =
      ⟨(diamondLoop g alpha X.toNat (seedsPresent g seeds) []).1,
       (diamondLoop g alpha X.toNat (seedsPresent g seeds) []).2,
       missingSeeds g seeds⟩ := by
  rw [diamond, if_neg]
  simp [h]

/-- Claim C9: a node with degree 0 in the graph never appears in the
returned sequence of admitted nodes, for every graph, seed set, `X` and
`alpha`. -/
theorem added_node_degree_ne_zero (g : Network) (seeds : List String) (X alpha : ℤ)
    (n : String) (h : n ∈ (diamond g seeds X alpha).added) : g.deg n ≠ 0 := by
  by_cases hs : seedsPresent g seeds = []
  · rw [diamond_empty g seeds X alpha hs] at h
    cases h
  · rw [diamond_eq_loop g seeds X alpha hs] at h
    obtain ⟨new, h1, -, h3, -⟩ :=
      diamondLoop_master g alpha X.toNat (seedsPresent g seeds) []
    rw [List.nil_append] at h1
    replace h : n ∈ (diamondLoop g alpha X.toNat (seedsPresent g seeds) []).1 := h
    rw [h1] at h
    exact (h3 n h).2.2

/-- Claim C9 witness: the run that admits A on the star graph; A has
nonzero degree. -/
theorem added_node_degree_ne_zero_witness : gStar.deg "A" ≠ 0 :=
  added_node_degree_ne_zero gStar ["B"] 1 1 "A" (by
    norm_num +decide [diamond, seedsPresent, missingSeeds, diamondLoop, findBest, bestFold,
      candScore, sfTail, kbOf, hypergeomPmf, Network.deg, gStar, sEffective, Finset.Icc_self])

/-- Claim C6: the Selection Records of a run accumulate in admission
order in a duplicate-free list of graph nodes disjoint from the initial
cluster (the present seeds), and after any `i` admissions the cluster —
the present seeds together with the first `i` admitted nodes — has
exactly `|seeds present| + i` nodes: it grows by exactly one node per
admitted record, never shrinks, and never holds duplicates. -/
theorem cluster_monotone_growth (g : Network) (seeds : List String) (X alpha : ℤ) :
    (diamond g seeds X alpha).added.Nodup ∧
    (∀ n ∈ (diamond g seeds X alpha).added, n ∉ seedsPresent g seeds ∧ n ∈ g.nodes) ∧
    (∀ i ≤ (diamond g seeds X alpha).added.length,
      ((seedsPresent g seeds).toFinset ∪
        ((diamond g seeds X alpha).added.take i).toFinset).card =
        (seedsPresent g seeds).length + i) := by
  have hsn : (seedsPresent g seeds).Nodup := List.nodup_dedup _
  have hcard : (seedsPresent g seeds).toFinset.card = (seedsPresent g seeds).length :=
    List.toFinset_card_of_nodup hsn
  by_cases hs : seedsPresent g seeds = []
  · rw [diamond_empty g seeds X alpha hs]
    refine ⟨List.nodup_nil, by simp, ?_⟩
    intro i hi
    simp only [List.length_nil, Nat.le_zero] at hi
    subst hi
    simpa using hcard
  · rw [diamond_eq_loop g seeds X alpha hs]
    obtain ⟨new, h1, h2, h3, -⟩ :=
      diamondLoop_master g alpha X.toNat (seedsPresent g seeds) []
    rw [List.nil_append] at h1
    dsimp only
    rw [h1]
    refine ⟨h2, ?_, ?_⟩
    · intro n hn
      exact ⟨(h3 n hn).1, (h3 n hn).2.1⟩
    · intro i hi
      have htake : (new.take i).Nodup := (List.take_sublist i new).nodup h2
      have hdisj : Disjoint (seedsPresent g seeds).toFinset (new.take i).toFinset := by
        rw [Finset.disjoint_left]
        intro x hx hx'
        rw [List.mem_toFinset] at hx hx'
        exact (h3 x (List.mem_of_mem_take hx')).1 hx
      rw [Finset.card_union_of_disjoint hdisj, hcard,
        List.toFinset_card_of_nodup htake, List.length_take]
      omega

/-- Claim C6 witness: on the star graph run that admits A, the cluster
after the single admission has `|seeds| + 1 = 2` nodes. -/
theorem cluster_monotone_growth_witness :
    ((seedsPresent gStar ["B"]).toFinset ∪
      ((diamond gStar ["B"] 1 1).added.take 1).toFinset).card =
      (seedsPresent gStar ["B"]).length + 1 :=
  (cluster_monotone_growth gStar ["B"] 1 1).2.2 1 (by
    norm_num +decide [diamond, seedsPresent, missingSeeds, diamondLoop, findBest, bestFold,
      candScore, sfTail, kbOf, hypergeomPmf, Network.deg, gStar, sEffective, Finset.Icc_self])

/-- Claim C5 counterexample: on the graph A - B with isolated node C,
seeds {A} and `X = 3` greater than the 2 non-seed nodes, the run stops
with `NO_SCORABLE_CANDIDATE` (not `NO_CANDIDATES`) and the non-seed node
C is never admitted, so the result is not "all remaining graph nodes". -/
theorem diamond_X_large_counterexample :
    (((gIsolated.nodes.toFinset \ (seedsPresent gIsolated ["A"]).toFinset).card : ℤ) < 3) ∧
    (diamond gIsolated ["A"] 3 1).reason = Reason.NO_SCORABLE_CANDIDATE ∧
    (diamond gIsolated ["A"] 3 1).added = ["B"] ∧
    "C" ∈ gIsolated.nodes ∧ "C" ∉ seedsPresent gIsolated ["A"] ∧
    "C" ∉ (diamond gIsolated ["A"] 3 1).added := by
  have hrun : diamond gIsolated ["A"] 3 1 = ⟨["B"], Reason.NO_SCORABLE_CANDIDATE, []⟩ := by
    norm_num +decide [diamond, seedsPresent, missingSeeds, diamondLoop, findBest, bestFold,
      candScore, sfTail, kbOf, hypergeomPmf, Network.deg, gIsolated, sEffective, Finset.Icc_self]
  rw [hrun]
  refine ⟨by decide, rfl, rfl, by decide, by decide, by decide⟩

/-- Claim C5 (amended): with a non-empty present seed set, if `X` exceeds
the number of non-seed graph nodes the run never reports
`TARGET_REACHED`: it terminates early with strictly fewer than `X`
admissions and no padding. When it stops with `NO_CANDIDATES` the
admitted nodes are exactly the non-seed nodes of the graph; it may
instead stop with `NO_SCORABLE_CANDIDATE`, leaving unscorable candidates
unadmitted. -/
theorem diamond_X_exceeds_nonseed (g : Network) (seeds : List String) (X alpha : ℤ)
    (hseed : seedsPresent g seeds ≠ [])
    (hX : ((g.nodes.toFinset \ (seedsPresent g seeds).toFinset).card : ℤ) < X) :
    (diamond g seeds X alpha).reason ≠ Reason.TARGET_REACHED ∧
    ((diamond g seeds X alpha).added.length : ℤ) < X ∧
    ((diamond g seeds X alpha).reason = Reason.NO_CANDIDATES →
      (diamond g seeds X alpha).added.toFinset =
        g.nodes.toFinset \ (seedsPresent g seeds).toFinset) := by
  rw [diamond_eq_loop g seeds X alpha hseed]
  obtain ⟨new, h1, h2, h3, h4, h5, h6, -⟩ :=
    diamondLoop_master g alpha X.toNat (seedsPresent g seeds) []
  rw [List.nil_append] at h1
  dsimp only
  rw [h1]
  have hsub : new.toFinset ⊆ g.nodes.toFinset \ (seedsPresent g seeds).toFinset := by
    intro x hx
    rw [List.mem_toFinset] at hx
    obtain ⟨hc, hn, -⟩ := h3 x hx
    rw [Finset.mem_sdiff, List.mem_toFinset, List.mem_toFinset]
    exact ⟨hn, hc⟩
  have hlen : new.length ≤ (g.nodes.toFinset \ (seedsPresent g seeds).toFinset).card := by
    calc new.length = new.toFinset.card := (List.toFinset_card_of_nodup h2).symm
    _ ≤ _ := Finset.card_le_card hsub
  refine ⟨?_, by omega, ?_⟩
  · intro ht
    have := h5 ht
    omega
  · intro hnc
    refine Finset.Subset.antisymm hsub ?_
    intro x hx
    rw [Finset.mem_sdiff, List.mem_toFinset, List.mem_toFinset] at hx
    rcases h6 hnc x hx.1 with hmem | hmem
    · exact absurd hmem hx.2
    · rw [List.mem_toFinset]
      exact hmem

/-- Claim C5 (amended) witness: the isolated-node graph with seeds {A}
and `X = 3`. -/
theorem diamond_X_exceeds_nonseed_witness :
    (diamond gIsolated ["A"] 3 1).reason ≠ Reason.TARGET_REACHED ∧
    ((diamond gIsolated ["A"] 3 1).added.length : ℤ) < 3 ∧
    ((diamond gIsolated ["A"] 3 1).reason = Reason.NO_CANDIDATES →
      (diamond gIsolated ["A"] 3 1).added.toFinset =
        gIsolated.nodes.toFinset \ (seedsPresent gIsolated ["A"]).toFinset) :=
  diamond_X_exceeds_nonseed gIsolated ["A"] 3 1 (by decide) (by decide)

/-- Claim C7: a seed set with empty intersection with the graph's nodes
makes the call signal `EMPTY_SEED_SET` with an empty result sequence;
with at least one present seed the run proceeds from the present seeds
(no `EMPTY_SEED_SET`), and in every case the missing seeds are reported
as the non-fatal diagnostic `seeds - nodes`. -/
theorem seeds_error_handling (g : Network) (seeds : List String) (X alpha : ℤ) :
    (seedsPresent g seeds = [] →
      (diamond g seeds X alpha).added = [] ∧
      (diamond g seeds X alpha).reason = Reason.EMPTY_SEED_SET) ∧
    (seedsPresent g seeds ≠ [] →
      (diamond g seeds X alpha).reason ≠ Reason.EMPTY_SEED_SET ∧
      (diamond g seeds X alpha).added =
        (diamondLoop g alpha X.toNat (seedsPresent g seeds) []).1) ∧
    (diamond g seeds X alpha).missing.toFinset = seeds.toFinset \ g.nodes.toFinset := by
  have hmiss : (missingSeeds g seeds).toFinset = seeds.toFinset \ g.nodes.toFinset := by
    ext x
    simp [missingSeeds, List.mem_filter, List.mem_dedup]
  refine ⟨?_, ?_, ?_⟩
  · intro h
    rw [diamond_empty g seeds X alpha h]
    exact ⟨rfl, rfl⟩
  · intro h
    rw [diamond_eq_loop g seeds X alpha h]
    obtain ⟨-, -, -, -, -, -, -, h7⟩ :=
      diamondLoop_master g alpha X.toNat (seedsPresent g seeds) []
    exact ⟨h7, rfl⟩
  · by_cases h : seedsPresent g seeds = []
    · rw [diamond_empty g seeds X alpha h]
      exact hmiss
    · rw [diamond_eq_loop g seeds X alpha h]
      exact hmiss

/-- Claim C7 witness: on the path graph, the all-missing seed set {Z}
signals `EMPTY_SEED_SET` with an empty result, while the partially
missing seed set {A, Z} proceeds and reports Z as missing. -/
theorem seeds_error_handling_witness :
    ((diamond gPath ["Z"] 5 1).added = [] ∧
      (diamond gPath ["Z"] 5 1).reason = Reason.EMPTY_SEED_SET) ∧
    ((diamond gPath ["A", "Z"] 2 1).reason ≠ Reason.EMPTY_SEED_SET ∧
      (diamond gPath ["A", "Z"] 2 1).added =
        (diamondLoop gPath 1 (2 : ℤ).toNat (seedsPresent gPath ["A", "Z"]) []).1) ∧
    (diamond gPath ["A", "Z"] 2 1).missing.toFinset =
      ["A", "Z"].toFinset \ gPath.nodes.toFinset :=
  ⟨(seeds_error_handling gPath ["Z"] 5 1).1 (by decide),
   (seeds_error_handling gPath ["A", "Z"] 2 1).2.1 (by decide),
   (seeds_error_handling gPath ["A", "Z"] 2 1).2.2⟩

/-- Claim C10: the loop terminates on every input: the admission count is
bounded by `max X 0` (each iteration admits exactly one node or exits)
and by the finite number of non-seed graph nodes, and `X ≤ 0` returns an
empty added list at once. -/
theorem diamond_terminates (g : Network) (seeds : List String) (X alpha : ℤ) :
    (X ≤ 0 → (diamond g seeds X alpha).added = []) ∧
    (((diamond g seeds X alpha).added.length : ℤ) ≤ max X 0) ∧
    (diamond g seeds X alpha).added.length ≤
      (g.nodes.toFinset \ (seedsPresent g seeds).toFinset).card := by
  by_cases hs : seedsPresent g seeds = []
  · rw [diamond_empty g seeds X alpha hs]
    exact ⟨fun _ => rfl, by simp [le_max_right], by simp⟩
  · rw [diamond_eq_loop g seeds X alpha hs]
    obtain ⟨new, h1, h2, h3, h4, -⟩ :=
      diamondLoop_master g alpha X.toNat (seedsPresent g seeds) []
    rw [List.nil_append] at h1
    dsimp only
    rw [h1]
    have hsub : new.toFinset ⊆ g.nodes.toFinset \ (seedsPresent g seeds).toFinset := by
      intro x hx
      rw [List.mem_toFinset] at hx
      obtain ⟨hc, hn, -⟩ := h3 x hx
      rw [Finset.mem_sdiff, List.mem_toFinset, List.mem_toFinset]
      exact ⟨hn, hc⟩
    have hlen : new.length ≤ (g.nodes.toFinset \ (seedsPresent g seeds).toFinset).card := by
      calc new.length = new.toFinset.card := (List.toFinset_card_of_nodup h2).symm
      _ ≤ _ := Finset.card_le_card hsub
    refine ⟨?_, by omega, hlen⟩
    intro hX0
    have hzero : new.length = 0 := by omega
    exact List.length_eq_zero.mp hzero

/-- Claim C10 witness: `X = -1` on the star graph returns an empty list
immediately, within both bounds. -/
theorem diamond_terminates_witness :
    (diamond gStar ["B"] (-1) 1).added = [] ∧
    (((diamond gStar ["B"] (-1) 1).added.length : ℤ) ≤ max (-1) 0) ∧
    (diamond gStar ["B"] (-1) 1).added.length ≤
      (gStar.nodes.toFinset \ (seedsPresent gStar ["B"]).toFinset).card :=
  ⟨(diamond_terminates gStar ["B"] (-1) 1).1 (by decide),
   (diamond_terminates gStar ["B"] (-1) 1).2.1,
   (diamond_terminates gStar ["B"] (-1) 1).2.2⟩

/-- For admissible parameters (`k ≤ N`, `s ≤ N`) the tail from `kb = 0`
is the whole distribution, which sums to exactly 1 by Vandermonde's
identity: `hypergeom.sf(-1, N, s, k) = 1.0`. -/
theorem sfTail_zero_eq_one (N s k : ℕ) (hk : k ≤ N) (hs : s ≤ N) :
    sfTail N s k 0 = 1 := by
  have hchoose : (0 : ℚ) < (Nat.choose N k : ℚ) := by
    exact_mod_cast Nat.choose_pos hk
  have hnat : ∑ i ∈ Finset.range (k + 1), Nat.choose s i * Nat.choose (N - s) (k - i) =
      Nat.choose N k := by
    have h1 := Nat.add_choose_eq s (N - s) k
    rw [Nat.add_sub_cancel' hs] at h1
    rw [h1, Finset.Nat.sum_antidiagonal_eq_sum_range_succ_mk]
  have hrange : Finset.Icc 0 k = Finset.range (k + 1) := by
    ext i
    rw [Finset.mem_Icc, Finset.mem_range]
    omega
  unfold sfTail hypergeomPmf
  rw [← Finset.sum_div, div_eq_one_iff_eq (ne_of_gt hchoose), hrange]
  calc ∑ i ∈ Finset.range (k + 1), (Nat.choose s i : ℚ) * (Nat.choose (N - s) (k - i) : ℚ)
      = ((∑ i ∈ Finset.range (k + 1),
          Nat.choose s i * Nat.choose (N - s) (k - i) : ℕ) : ℚ) := by
        push_cast
        rfl
    _ = (Nat.choose N k : ℚ) := by rw [hnat]

/-- Claim C3 counterexample: in the two-component graph with cluster {A},
the candidate C has positive degree and `kb = 0`, yet it is scored — the
scan computes `some 1` for it — instead of being skipped without scoring
as the claim requires. -/
theorem kb_zero_scored_not_skipped :
    gTwoComp.deg "C" ≠ 0 ∧ kbOf gTwoComp ["A"] "C" = 0 ∧
    candScore gTwoComp ["A"] 4 1 "C" = some 1 := by
  refine ⟨by decide, by decide, ?_⟩
  have h0 : candScore gTwoComp ["A"] 4 1 "C" = some (sfTail 4 1 1 0) := rfl
  rw [h0, sfTail_zero_eq_one 4 1 1 (by norm_num) (by norm_num)]

/-- Claim C3 (amended): candidates with degree 0 are skipped without
being scored, but candidates with `kb = 0` and positive degree are not
skipped: they are scored, with the least-significant p-value exactly 1
(for admissible parameters), so the strict-improvement scan can never
select them over the initial best of 1. -/
theorem degree_zero_skipped_kb_zero_scored (g : Network) (cluster : List String)
    (N s : ℕ) (node : String) :
    (g.deg node = 0 → candScore g cluster N s node = none) ∧
    (g.deg node ≠ 0 → kbOf g cluster node = 0 → g.deg node ≤ N → s ≤ N →
      candScore g cluster N s node = some 1) := by
  constructor
  · intro h0
    simp [candScore, h0]
  · intro hd hkb hk hs
    unfold candScore
    rw [if_neg hd, hkb, sfTail_zero_eq_one N s (g.deg node) hk hs]

/-- Claim C3 (amended) witness: the degree-0 node C of the isolated-node
graph is skipped; the degree-1, `kb = 0` node C of the two-component
graph is scored as 1. -/
theorem degree_zero_skipped_kb_zero_scored_witness :
    candScore gIsolated ["A"] 3 1 "C" = none ∧
    candScore gTwoComp ["A"] 4 1 "C" = some 1 :=
  ⟨(degree_zero_skipped_kb_zero_scored gIsolated ["A"] 3 1 "C").1 (by decide),
   (degree_zero_skipped_kb_zero_scored gTwoComp ["A"] 4 1 "C").2
     (by decide) (by decide) (by decide) (by decide)⟩

end DiamondSpec
